import Mathlib

/-!
Verification of the file-management-system repository.

The development shallowly embeds the Python sources:
  * main.py                (organize_file: extension classification + bulk move + audit)
  * src/core/file_info.py  (FileInfos: get_file_info, human_readable_size,
                            compare_files, get_directory_tree)
  * src/core/dir_ops.py    (DirOps: resolve_path)
  * src/core/file_ops.py   (FileOps: resolve_path)

Pure functions are embedded as Lean functions; the filesystem is passed as an
explicit value (a listing for main.py, an association list of entries for
file_info.py, an inductive node tree for get_directory_tree).  Fields of the
Python info dictionaries that no property refers to (timestamps, owner, group,
inode, device, permissions, mime type, line counts) are omitted from the
embedded records.
-/

/-! ## Embedding of pathlib's PurePath.suffix

Python: name.rfind of the dot character gives index i; the suffix is name
from i when 0 < i < len(name) - 1, and the empty string otherwise. -/

/-- Index of the last occurrence of the dot in the character list, as
Python's str.rfind: the index from the left, or none when absent. -/
def rfindDot (cs : List Char) : Option Nat :=
  let r := cs.reverse.indexOf '.'
  if r < cs.length then some (cs.length - 1 - r) else none

/-- Embedding of pathlib.PurePath.suffix on a file name: the substring from
the last dot, when that dot is neither the first nor the last character;
otherwise the empty string. -/
def pySuffix (name : String) : String :=
  let cs := name.data
  match rfindDot cs with
  | none => ""
  | some i => if 0 < i ∧ i < cs.length - 1 then String.mk (cs.drop i) else ""

/-- Modelled from the spec words of the claim (for comparison with the code):
the extension is the substring after the last dot, including the dot, and
empty when the name has no dot. -/
def specSuffix (name : String) : String :=
  let cs := name.data
  match rfindDot cs with
  | none => ""
  | some i => String.mk (cs.drop i)

/-- Lower-casing of one character in the ASCII range (embedding of
str.lower as used on extensions, which are ASCII here). -/
def asciiLowerChar (c : Char) : Char :=
  if 'A' ≤ c ∧ c ≤ 'Z' then Char.ofNat (c.toNat + 32) else c

/-- Lower-casing of a string in the ASCII range (embedding of str.lower). -/
def strLower (s : String) : String :=
  String.mk (s.data.map asciiLowerChar)

/-! ## Embedding of main.py organize_file -/

/-- The categories table of organize_file, in Python dict insertion order. -/
def mainCategories : List (String × List String) :=
  [("Images", [".jpg", ".jpeg", ".png", ".gif", ".bmp"]),
   ("Documents", [".pdf", ".txt", ".md", ".doc", ".docx"]),
   ("Archives", [".zip", ".rar", ".tar"]),
   ("Videos", [".mp4"]),
   ("Others", [])]

/-- Embedding of the inner for-loop of organize_file over categories.items():
the first category whose extension list contains the extension, none when the
loop finishes with moved = False. -/
def classifyLoop (ext : String) : List (String × List String) → Option String
  | [] => none
  | (cat, exts) :: rest => if ext ∈ exts then some cat else classifyLoop ext rest

/-- The category organize_file moves a file with the given name into:
item.suffix.lower() looked up by the loop, with the not-moved branch going to
Others. -/
def organizeCategory (name : String) : String :=
  ((classifyLoop (strLower (pySuffix name)) mainCategories).getD "Others")

/-- Modelled from the spec words of the claim (for comparison with the code):
the same table lookup applied to the spec's extension extraction rule. -/
def specCategory (name : String) : String :=
  ((classifyLoop (strLower (specSuffix name)) mainCategories).getD "Others")

/-- A top-level entry of the directory organize_file iterates:
its name and whether item.is_file() holds (True for regular files,
False for the category subdirectories). -/
structure DirEntry where
  name : String
  isFile : Bool
deriving DecidableEq, Repr

/-- One recorded move of organize_file: the file name, the destination
category, and whether the move came from a rule match (True) or from the
not-moved fallback branch (False). -/
structure Move where
  name : String
  category : String
  viaRule : Bool
deriving DecidableEq, Repr

/-- Embedding of the body of the iterdir loop of organize_file for one entry:
non-files are skipped; a file is classified, moved, and one audit string is
appended (with a trailing newline in the rule-match branch, without one in
the fallback branch). -/
def organizeStep (e : DirEntry) : Option Move × String :=
  if e.isFile then
    let ext := strLower (pySuffix e.name)
    match classifyLoop ext mainCategories with
    | some cat =>
        (some ⟨e.name, cat, true⟩, "-------" ++ e.name ++ " to " ++ cat ++ "\n")
    | none =>
        (some ⟨e.name, "Others", false⟩, "Moved " ++ e.name ++ " to Others")
  else (none, "")

/-- Embedding of organize_file: iterate the top-level listing, returning the
moves performed in order and the text appended to the audit file report.txt. -/
def organize_file : List DirEntry → List Move × String
  | [] => ([], "")
  | e :: rest =>
      let step := organizeStep e
      let tail := organize_file rest
      (match step.1 with
       | some m => m :: tail.1
       | none => tail.1,
       step.2 ++ tail.2)

/-- The top-level listing of a directory that a previous organize_file run
left behind: the five category subdirectories plus the audit file report.txt. -/
def organizedListing : List DirEntry :=
  [⟨"Images", false⟩, ⟨"Documents", false⟩, ⟨"Archives", false⟩,
   ⟨"Videos", false⟩, ⟨"Others", false⟩, ⟨"report.txt", true⟩]

/-- The audit format of a rule-matched move of organize_file. -/
def ruleLine (name cat : String) : String :=
  "-------" ++ name ++ " to " ++ cat ++ "\n"

/-- The audit format of a fallback move of organize_file (no trailing
newline in the source). -/
def fallbackLine (name : String) : String :=
  "Moved " ++ name ++ " to Others"

/-- Splitting of a character list on a separator character, as str.split:
the pieces between the separators, in order, empty pieces included. -/
def splitOnChar (sep : Char) : List Char → List (List Char)
  | [] => [[]]
  | a :: rest =>
      match splitOnChar sep rest with
      | [] => [[]]
      | h :: t => if a = sep then [] :: h :: t else (a :: h) :: t

/-- Newline-terminated-line view of the audit file: split on the newline
character and drop empty pieces. -/
def auditLines (s : String) : List String :=
  ((splitOnChar '\n' s.data).map String.mk).filter (fun l => l ≠ "")

/-! ## Generic facts about the classification loop -/

/-- The classification loop returns none exactly when no category's extension
list contains the extension. -/
theorem classifyLoop_eq_none (ext : String) (t : List (String × List String)) :
    classifyLoop ext t = none ↔ ∀ p ∈ t, ext ∉ p.2 := by
  induction t with
  | nil => simp [classifyLoop]
  | cons hd tl ih =>
      by_cases h : ext ∈ hd.2
      · simp [classifyLoop, h]
      · simp [classifyLoop, h, ih]

/-- A category returned by the classification loop is a category of the
table. -/
theorem classifyLoop_mem (ext : String) (t : List (String × List String))
    (c : String) (h : classifyLoop ext t = some c) : c ∈ t.map Prod.fst := by
  induction t with
  | nil => simp [classifyLoop] at h
  | cons hd tl ih =>
      by_cases hm : ext ∈ hd.2
      · simp [classifyLoop, hm] at h
        simp [← h]
      · simp [classifyLoop, hm] at h
        simpa using Or.inr (ih h)

/-- First-match: when the i-th category's list contains the extension and no
earlier category's list does, the loop returns the i-th category. -/
theorem classifyLoop_first (ext : String) (t : List (String × List String))
    (i : Nat) (hi : i < t.length) (hmem : ext ∈ (t.get ⟨i, hi⟩).2)
    (hnot : ∀ p ∈ t.take i, ext ∉ p.2) :
    classifyLoop ext t = some (t.get ⟨i, hi⟩).1 := by
  induction t generalizing i with
  | nil => simp at hi
  | cons hd tl ih =>
      cases i with
      | zero => simpa [classifyLoop] using fun h => absurd hmem h
      | succ j =>
          have hhd : ext ∉ hd.2 := hnot hd (by simp)
          have htl : ∀ p ∈ tl.take j, ext ∉ p.2 := by
            intro p hp
            exact hnot p (by simp [List.take_cons, hp])
          simpa [classifyLoop, hhd] using
            ih j (Nat.lt_of_succ_lt_succ hi) hmem htl

/-! ## Claims C1, C6, C7 about main.py organize_file -/

/-- Claim C1, counterexample: the listing left behind by a previous run
(category subdirectories plus the audit file report.txt) is reorganized with
one additional move — report.txt itself is classified (extension .txt) and
moved to Documents, with one more audit entry appended. -/
theorem C1_counterexample :
    (organize_file organizedListing).1 =
      [⟨"report.txt", "Documents", true⟩] ∧
    (organize_file organizedListing).1.length ≠ 0 ∧
    (organize_file organizedListing).2 = "-------report.txt to Documents\n" := by
  refine ⟨by decide, by decide, by decide⟩

/-- Claim C1, amended: subdirectories are never classified or moved, so a
directory whose top level holds only directories (the category
subdirectories, with no audit file present) sees zero moves and zero audit
text; the directory's own audit file report.txt, however, is a top-level
regular file and is classified and moved by a re-run. -/
theorem C1_organize_rerun (entries : List DirEntry)
    (h : ∀ e ∈ entries, e.isFile = false) :
    (organize_file entries).1 = [] ∧ (organize_file entries).2 = "" := by
  induction entries with
  | nil => simp [organize_file]
  | cons hd tl ih =>
      have hhd : hd.isFile = false := h hd (by simp)
      have htl := ih (fun e he => h e (by simp [he]))
      have hstep : organizeStep hd = (none, "") := by
        simp [organizeStep, hhd]
      simp [organize_file, hstep, htl.1, htl.2]

/-- Claim C1, witness for the amended theorem at the listing of the five
category subdirectories alone. -/
theorem C1_organize_rerun_witness :
    (organize_file [⟨"Images", false⟩, ⟨"Documents", false⟩,
        ⟨"Archives", false⟩, ⟨"Videos", false⟩, ⟨"Others", false⟩]).1 = [] ∧
    (organize_file [⟨"Images", false⟩, ⟨"Documents", false⟩,
        ⟨"Archives", false⟩, ⟨"Videos", false⟩, ⟨"Others", false⟩]).2 = "" :=
  C1_organize_rerun _ (by decide)

/-- Claim C6, counterexample: for the file name ".jpg" the code's extension
(pathlib suffix) is empty, so the file is classified Others, while the
claim's extraction rule (substring after the last dot) gives ".jpg" and
classifies it Images. -/
theorem C6_counterexample :
    pySuffix ".jpg" = "" ∧ specSuffix ".jpg" = ".jpg" ∧
    organizeCategory ".jpg" = "Others" ∧ specCategory ".jpg" = "Images" ∧
    organizeCategory ".jpg" ≠ specCategory ".jpg" := by
  refine ⟨by decide, by decide, by decide, by decide, by decide⟩

/-- Claim C6, amended: classification is total, first-match in table order,
and falls back to Others when no rule matches; the extension is pathlib's
suffix — lowercased substring from the last dot when that dot is neither the
first nor the last character of the name, and empty otherwise (so a name
like ".jpg" or "file." has the empty extension). -/
theorem C6_classification (name : String) :
    organizeCategory name ∈ mainCategories.map Prod.fst ∧
    (∀ i, ∀ hi : i < mainCategories.length,
      strLower (pySuffix name) ∈ (mainCategories.get ⟨i, hi⟩).2 →
      (∀ p ∈ mainCategories.take i, strLower (pySuffix name) ∉ p.2) →
      organizeCategory name = (mainCategories.get ⟨i, hi⟩).1) ∧
    ((∀ p ∈ mainCategories, strLower (pySuffix name) ∉ p.2) →
      organizeCategory name = "Others") := by
  refine ⟨?_, ?_, ?_⟩
  · unfold organizeCategory
    cases hc : classifyLoop (strLower (pySuffix name)) mainCategories with
    | none => decide
    | some c => simpa using classifyLoop_mem _ _ _ hc
  · intro i hi hmem hnot
    unfold organizeCategory
    rw [classifyLoop_first _ _ i hi hmem hnot]
    rfl
  · intro hall
    unfold organizeCategory
    rw [(classifyLoop_eq_none _ _).mpr hall]
    rfl

/-- Claim C6, witness: at the name "photo.JPG" the first category (Images)
matches and earlier categories are vacuous, so the amended theorem yields
the category Images. -/
theorem C6_classification_witness : organizeCategory "photo.JPG" = "Images" := by
  have h := (C6_classification "photo.JPG").2.1 0 (by decide) (by decide)
    (by intro p hp; simp at hp)
  simpa using h

/-- Claim C7, counterexample: a fallback move appends no trailing newline,
so the run on files c.xyz then d.jpg performs two moves but leaves an audit
file with a single physical line, "Moved c.xyz to Others-------d.jpg to
Images"; the per-move one-line format is violated. -/
theorem C7_counterexample :
    (organize_file [⟨"c.xyz", true⟩, ⟨"d.jpg", true⟩]).1.length = 2 ∧
    (organize_file [⟨"c.xyz", true⟩, ⟨"d.jpg", true⟩]).2 =
      "Moved c.xyz to Others-------d.jpg to Images\n" ∧
    (auditLines (organize_file [⟨"c.xyz", true⟩, ⟨"d.jpg", true⟩]).2).length
      = 1 := by
  refine ⟨by decide, by decide, by decide⟩

/-- Claim C7, amended: every successful move appends exactly one audit
record, and the whole audit text is the concatenation of the per-move
records in move order; a rule-matched move appends the newline-terminated
record "-------<filename> to <category>\n" while a fallback move appends
"Moved <filename> to Others" without a trailing newline (so the record after
a fallback record continues the same physical line). -/
theorem C7_audit_format (entries : List DirEntry) :
    (organize_file entries).2 =
      ((organize_file entries).1.map
        (fun m => if m.viaRule then ruleLine m.name m.category
                  else fallbackLine m.name)).foldr (fun a b => a ++ b) "" := by
  induction entries with
  | nil => simp [organize_file]
  | cons hd tl ih =>
      by_cases hf : hd.isFile
      · cases hc : classifyLoop (strLower (pySuffix hd.name)) mainCategories with
        | none =>
            have hstep : organizeStep hd =
                (some ⟨hd.name, "Others", false⟩, fallbackLine hd.name) := by
              simp [organizeStep, hf, hc, fallbackLine]
            simp [organize_file, hstep, ih]
        | some cat =>
            have hstep : organizeStep hd =
                (some ⟨hd.name, cat, true⟩, ruleLine hd.name cat) := by
              simp [organizeStep, hf, hc, ruleLine]
            simp [organize_file, hstep, ih]
      · have hstep : organizeStep hd = (none, "") := by
          simp [organizeStep, hf]
        simp [organize_file, hstep, ih]

/-! ## Embedding of FileInfos._human_readable_size (src/core/file_info.py)

The Python loop divides a float by 1024.0 per unit; the running value is
size / 1024^k, represented here exactly as the pair (size, 1024^k), and the
2-decimal rendering of Python float formatting is round-half-to-even of the
exact value (the two coincide whenever size < 2^53, where the float
divisions are exact). -/

/-- Rendering of the nonnegative value num/den to two decimal places with
round-half-to-even, as the .2f format specifier. -/
def twoDecimals (num den : Nat) : String :=
  let m := num * 100
  let q := m / den
  let r := m % den
  let rounded := if 2 * r < den then q
                 else if den < 2 * r then q + 1
                 else if q % 2 = 0 then q else q + 1
  toString (rounded / 100) ++ "." ++
    (if rounded % 100 < 10 then "0" else "") ++ toString (rounded % 100)

/-- Embedding of the unit loop of _human_readable_size: return at the first
unit where the running value is below 1024, otherwise divide by 1024 and
continue, falling through to PB after TB. -/
def hrLoop (size den : Nat) : List String → String
  | [] => twoDecimals size den ++ " PB"
  | u :: rest =>
      if size < 1024 * den then twoDecimals size den ++ " " ++ u
      else hrLoop size (den * 1024) rest

/-- Embedding of FileInfos._human_readable_size. -/
def human_readable_size (size : Nat) : String :=
  hrLoop size 1 ["B", "KB", "MB", "GB", "TB"]

/-- The unit attached to exponent e by _human_readable_size. -/
def unitName (e : Nat) : String :=
  (["B", "KB", "MB", "GB", "TB", "PB"]).getD e "PB"

/-- Claim C8: binary 1024-based units with two decimal places; the four
example values render as stated, the unit picked for a byte count is the one
whose exponent e is least with size < 1024 ^ (e + 1) (so the displayed value
is the scaled value below 1024), and byte counts of at least 1024^5 fall
through to PB. -/
theorem C8_human_readable_size :
    human_readable_size 0 = "0.00 B" ∧
    human_readable_size 1024 = "1.00 KB" ∧
    human_readable_size 1536 = "1.50 KB" ∧
    human_readable_size 1048576 = "1.00 MB" ∧
    (∀ size e, e < 5 → size < 1024 ^ (e + 1) →
      (∀ j, j < e → 1024 ^ (j + 1) ≤ size) →
      human_readable_size size =
        twoDecimals size (1024 ^ e) ++ " " ++ unitName e) ∧
    (∀ size, (∀ j, j < 5 → 1024 ^ (j + 1) ≤ size) →
      human_readable_size size = twoDecimals size (1024 ^ 5) ++ " PB") := by
  refine ⟨by decide, by decide, by decide, by decide, ?_, ?_⟩
  · intro size e he hlt hge
    have g : ∀ j, j < e → 1024 ^ (j + 1) ≤ size := hge
    interval_cases e
    · norm_num at hlt
      simp only [human_readable_size, hrLoop]
      rw [if_pos (by omega)]
      norm_num [unitName]
    · have h0 := g 0 (by omega)
      norm_num at hlt h0
      simp only [human_readable_size, hrLoop]
      rw [if_neg (by omega), if_pos (by omega)]
      norm_num [unitName]
    · have h0 := g 0 (by omega)
      have h1 := g 1 (by omega)
      norm_num at hlt h0 h1
      simp only [human_readable_size, hrLoop]
      rw [if_neg (by omega), if_neg (by omega), if_pos (by omega)]
      norm_num [unitName]
    · have h0 := g 0 (by omega)
      have h1 := g 1 (by omega)
      have h2 := g 2 (by omega)
      norm_num at hlt h0 h1 h2
      simp only [human_readable_size, hrLoop]
      rw [if_neg (by omega), if_neg (by omega), if_neg (by omega),
        if_pos (by omega)]
      norm_num [unitName]
    · have h0 := g 0 (by omega)
      have h1 := g 1 (by omega)
      have h2 := g 2 (by omega)
      have h3 := g 3 (by omega)
      norm_num at hlt h0 h1 h2 h3
      simp only [human_readable_size, hrLoop]
      rw [if_neg (by omega), if_neg (by omega), if_neg (by omega),
        if_neg (by omega), if_pos (by omega)]
      norm_num [unitName]
  · intro size hge
    have h0 := hge 0 (by omega)
    have h1 := hge 1 (by omega)
    have h2 := hge 2 (by omega)
    have h3 := hge 3 (by omega)
    have h4 := hge 4 (by omega)
    norm_num at h0 h1 h2 h3 h4
    simp only [human_readable_size, hrLoop]
    rw [if_neg (by omega), if_neg (by omega), if_neg (by omega),
      if_neg (by omega), if_neg (by omega)]
    norm_num

/-- Claim C8, witness: at size 2048 with exponent 1 the hypotheses hold
concretely and the theorem yields the KB rendering. -/
theorem C8_human_readable_size_witness : human_readable_size 2048 = "2.00 KB" := by
  have h := C8_human_readable_size.2.2.2.2.1 2048 1 (by omega) (by norm_num)
    (by intro j hj; interval_cases j; norm_num)
  rw [h]
  decide

/-! ## Embedding of path resolution (src/core/dir_ops.py, src/core/file_ops.py)

A pathlib path is its absolute flag plus its name segments, which may
contain the "." and ".." entries.  Symbolic links are not modelled, so
Path.resolve is the absolute-making collapse of "." and ".." segments. -/

/-- A pathlib path: absolute flag and segments. -/
structure PyPath where
  absolute : Bool
  segs : List String
deriving DecidableEq, Repr

/-- One step of the resolve collapse: "." is dropped, ".." removes the last
accumulated segment (staying at the root when there is none), any other
segment is appended. -/
def resolveStep (acc : List String) (s : String) : List String :=
  if s = "." then acc
  else if s = ".." then acc.dropLast
  else acc ++ [s]

/-- Embedding of Path.resolve applied to absolute segments: left-to-right
collapse of "." and "..". -/
def resolveSegs (segs : List String) : List String :=
  segs.foldl resolveStep []

/-- Embedding of the pathlib / operator: an absolute right operand replaces
the left operand; otherwise the segments are concatenated. -/
def joinPath (a b : PyPath) : PyPath :=
  if b.absolute then b else ⟨a.absolute, a.segs ++ b.segs⟩

/-- Embedding of DirOps._resolve_path: join onto current_dir when the input
is relative, then Path.resolve (which itself anchors a still-relative path
at the process working directory before collapsing). -/
def dirops_resolve_path (cwd current_dir p : PyPath) : PyPath :=
  let path := if p.absolute then p else joinPath current_dir p
  ⟨true, resolveSegs (if path.absolute then path.segs else cwd.segs ++ path.segs)⟩

/-- Embedding of FileOps._resolve_path: the path itself when absolute,
otherwise base_path / path; no normalization is applied. -/
def fileops_resolve_path (base p : PyPath) : PyPath :=
  if p.absolute then p else joinPath base p

/-- Segments already in canonical form: no "." and no "..". -/
def cleanSegs (segs : List String) : Prop :=
  ∀ s ∈ segs, s ≠ "." ∧ s ≠ ".."

/-- The resolve collapse keeps accumulated segments canonical. -/
theorem resolveStep_clean (acc : List String) (s : String)
    (h : cleanSegs acc) : cleanSegs (resolveStep acc s) := by
  unfold resolveStep
  by_cases h1 : s = "."
  · simpa [h1] using h
  · by_cases h2 : s = ".."
    · simp only [h1, h2, if_false, if_true]
      intro x hx
      exact h x (List.dropLast_subset _ hx)
    · simp only [h1, h2, if_false]
      intro x hx
      rcases List.mem_append.mp hx with hx | hx
      · exact h x hx
      · simp at hx
        simp [hx, h1, h2]

/-- The output of the resolve collapse is canonical, for any canonical
starting accumulator. -/
theorem foldl_resolveStep_clean (l : List String) (acc : List String)
    (h : cleanSegs acc) : cleanSegs (l.foldl resolveStep acc) := by
  induction l generalizing acc with
  | nil => simpa using h
  | cons hd tl ih => exact ih _ (resolveStep_clean acc hd h)

/-- On canonical segments the resolve collapse only appends. -/
theorem foldl_resolveStep_of_clean (l : List String) (acc : List String)
    (h : cleanSegs l) : l.foldl resolveStep acc = acc ++ l := by
  induction l generalizing acc with
  | nil => simp
  | cons hd tl ih =>
      have hhd := h hd (by simp)
      have htl : cleanSegs tl := fun s hs => h s (by simp [hs])
      simp only [List.foldl_cons, resolveStep, hhd.1, hhd.2, if_false]
      rw [ih _ htl]
      simp

/-- The resolve collapse is idempotent. -/
theorem resolveSegs_idem (l : List String) :
    resolveSegs (resolveSegs l) = resolveSegs l := by
  have hc : cleanSegs (resolveSegs l) :=
    foldl_resolveStep_clean l [] (by intro s hs; simp at hs)
  unfold resolveSegs
  simpa using foldl_resolveStep_of_clean _ [] hc

/-- Claim C9: path resolution is idempotent in both resolvers: applying
DirOps._resolve_path to its own result returns the identical path, and,
when the configured base is absolute (as FileOps.__init__ guarantees),
applying FileOps._resolve_path to its own result returns the identical
path. -/
theorem C9_resolve_idempotent (cwd current_dir base p : PyPath) :
    dirops_resolve_path cwd current_dir (dirops_resolve_path cwd current_dir p) =
      dirops_resolve_path cwd current_dir p ∧
    (base.absolute = true →
      fileops_resolve_path base (fileops_resolve_path base p) =
        fileops_resolve_path base p) := by
  constructor
  · simp only [dirops_resolve_path]
    simp [resolveSegs_idem]
  · intro hb
    by_cases hp : p.absolute
    · simp [fileops_resolve_path, hp]
    · simp [fileops_resolve_path, joinPath, hp, hb]

/-- Claim C9, witness at a concrete relative path under an absolute cwd,
current_dir and base. -/
theorem C9_resolve_idempotent_witness :
    dirops_resolve_path ⟨true, []⟩ ⟨true, ["home"]⟩
        (dirops_resolve_path ⟨true, []⟩ ⟨true, ["home"]⟩ ⟨false, ["a", "..", "b"]⟩) =
      dirops_resolve_path ⟨true, []⟩ ⟨true, ["home"]⟩ ⟨false, ["a", "..", "b"]⟩ ∧
    fileops_resolve_path ⟨true, ["base"]⟩
        (fileops_resolve_path ⟨true, ["base"]⟩ ⟨false, ["a", "..", "b"]⟩) =
      fileops_resolve_path ⟨true, ["base"]⟩ ⟨false, ["a", "..", "b"]⟩ :=
  ⟨(C9_resolve_idempotent ⟨true, []⟩ ⟨true, ["home"]⟩ ⟨true, ["base"]⟩
      ⟨false, ["a", "..", "b"]⟩).1,
   (C9_resolve_idempotent ⟨true, []⟩ ⟨true, ["home"]⟩ ⟨true, ["base"]⟩
      ⟨false, ["a", "..", "b"]⟩).2 rfl⟩

/-! ## Embedding of FileInfos.compare_files (src/core/file_info.py)

A file argument is its is_file test plus its byte content; the loop reads
lock-step 8192-byte chunks (List.take 8192 of the remaining bytes), and the
embedding additionally counts the number of read pairs performed so that
"without reading content" is a provable statement. -/

/-- The tagged result dictionaries of compare_files: the error dictionary
for a non-file argument, the size-mismatch and content-mismatch reason
dictionaries, and the content-equal dictionary. -/
inductive CmpOutcome where
  | errorBoth
  | sizeMismatch
  | contentMismatch
  | equal
deriving DecidableEq, Repr

/-- An argument of compare_files: the is_file test result and the byte
content of the file. -/
structure FileArg where
  isFile : Bool
  content : List Nat
deriving DecidableEq, Repr

/-- Embedding of the buffered while-loop of compare_files, returning the
outcome together with the number of chunk pairs read: unequal chunks yield
content-mismatch immediately, an empty chunk (end of both streams) yields
equal, otherwise the loop continues past the 8192 bytes read. -/
def cmpLoop (c1 c2 : List Nat) : CmpOutcome × Nat :=
  if c1.take 8192 ≠ c2.take 8192 then (.contentMismatch, 1)
  else if c1.take 8192 = [] then (.equal, 1)
  else
    let r := cmpLoop (c1.drop 8192) (c2.drop 8192)
    (r.1, r.2 + 1)
termination_by c1.length
decreasing_by
  rcases c1 with _ | ⟨a, c⟩
  · simp_all
  · simp
    omega

/-- Embedding of FileInfos.compare_files: the error dictionary unless both
arguments are files, then the stat size comparison (zero chunk reads), then
the buffered loop. -/
def compare_files (f1 f2 : FileArg) : CmpOutcome × Nat :=
  if ¬ (f1.isFile ∧ f2.isFile) then (.errorBoth, 0)
  else if f1.content.length ≠ f2.content.length then (.sizeMismatch, 0)
  else cmpLoop f1.content f2.content

/-- The i-th 8 KiB block of a byte list. -/
def chunkAt (i : Nat) (c : List Nat) : List Nat :=
  (c.drop (8192 * i)).take 8192

/-- Shifting a block index by one is dropping the first block. -/
theorem chunkAt_succ (c : List Nat) (j : Nat) :
    chunkAt (j + 1) c = chunkAt j (c.drop 8192) := by
  simp only [chunkAt, List.drop_drop, Nat.mul_succ]
  rw [Nat.add_comm]

/-- The loop on two identical streams reports equal. -/
theorem cmpLoop_self (c : List Nat) : (cmpLoop c c).1 = .equal := by
  generalize hn : c.length = n
  induction n using Nat.strong_induction_on generalizing c with
  | _ n ih =>
    rw [cmpLoop]
    by_cases hc : c.take 8192 = []
    · simp [hc]
    · simp [hc]
      apply ih (c.drop 8192).length ?_ _ rfl
      subst hn
      rcases c with _ | ⟨a, t⟩
      · simp at hc
      · simp
        omega

/-- The loop on two same-length different streams reports content-mismatch
after reading exactly up to the first unequal block pair. -/
theorem cmpLoop_ne (c1 c2 : List Nat) (hlen : c1.length = c2.length)
    (hne : c1 ≠ c2) :
    (cmpLoop c1 c2).1 = .contentMismatch ∧
    ∃ i, (cmpLoop c1 c2).2 = i + 1 ∧
      (∀ j, j < i → chunkAt j c1 = chunkAt j c2) ∧
      chunkAt i c1 ≠ chunkAt i c2 := by
  generalize hn : c1.length = n
  induction n using Nat.strong_induction_on generalizing c1 c2 with
  | _ n ih =>
    by_cases hk : c1.take 8192 = c2.take 8192
    · have hnonempty : c1 ≠ [] := by
        intro h
        subst h
        have h2 : c2 = [] := by
          have := hlen.symm
          simpa using this
        exact hne (by simp [h2])
      have hknil : ¬ c1.take 8192 = [] := by
        rcases c1 with _ | ⟨a, t⟩
        · exact absurd rfl hnonempty
        · simp
      have hd_ne : c1.drop 8192 ≠ c2.drop 8192 := by
        intro h
        apply hne
        rw [← List.take_append_drop 8192 c1, ← List.take_append_drop 8192 c2,
          hk, h]
      have hlen2 : (c1.drop 8192).length = (c2.drop 8192).length := by
        simp [hlen]
      have hlt : (c1.drop 8192).length < n := by
        subst hn
        rcases c1 with _ | ⟨a, t⟩
        · exact absurd rfl hnonempty
        · simp
          omega
      obtain ⟨hcm, i, hcount, hpre, hdiff⟩ := ih _ hlt _ _ hlen2 hd_ne rfl
      have hc2nil : ¬ c2 = [] := by
        intro h
        rw [h] at hlen
        simp at hlen
        exact hnonempty hlen
      have heq : cmpLoop c1 c2 =
          ((cmpLoop (c1.drop 8192) (c2.drop 8192)).1,
           (cmpLoop (c1.drop 8192) (c2.drop 8192)).2 + 1) := by
        rw [cmpLoop]
        simp [hk, hknil, hc2nil]
      refine ⟨?_, i + 1, ?_, ?_, ?_⟩
      · rw [heq]
        exact hcm
      · rw [heq]
        simp [hcount]
      · intro j hj
        cases j with
        | zero => simpa [chunkAt] using hk
        | succ j2 =>
            rw [chunkAt_succ, chunkAt_succ]
            exact hpre j2 (by omega)
      · rw [chunkAt_succ, chunkAt_succ]
        exact hdiff
    · refine ⟨?_, 0, ?_, ?_, ?_⟩
      · rw [cmpLoop]
        simp [hk]
      · rw [cmpLoop]
        simp [hk]
      · intro j hj
        omega
      · simpa [chunkAt] using hk

/-- Claim C3: compare_files on two regular files follows the two-phase
algorithm — a size difference returns size-mismatch with zero chunk reads;
with equal sizes the result is equal exactly when the contents coincide
(simultaneous end-of-stream with all blocks equal); and differing same-size
contents return content-mismatch having read exactly the block pairs up to
and including the first unequal pair, none further. -/
theorem C3_compare_files (f1 f2 : FileArg)
    (h1 : f1.isFile = true) (h2 : f2.isFile = true) :
    (f1.content.length ≠ f2.content.length →
      compare_files f1 f2 = (.sizeMismatch, 0)) ∧
    (f1.content.length = f2.content.length →
      ((compare_files f1 f2).1 = .equal ↔ f1.content = f2.content)) ∧
    (f1.content.length = f2.content.length → f1.content ≠ f2.content →
      (compare_files f1 f2).1 = .contentMismatch ∧
      ∃ i, (compare_files f1 f2).2 = i + 1 ∧
        (∀ j, j < i → chunkAt j f1.content = chunkAt j f2.content) ∧
        chunkAt i f1.content ≠ chunkAt i f2.content) := by
  refine ⟨?_, ?_, ?_⟩
  · intro hne
    simp [compare_files, h1, h2, hne]
  · intro hlen
    constructor
    · intro he
      by_contra hcne
      have hcm := (cmpLoop_ne _ _ hlen hcne).1
      have hx : (compare_files f1 f2).1 = .contentMismatch := by
        simp [compare_files, h1, h2, hlen]
        exact hcm
      rw [he] at hx
      exact absurd hx (by decide)
    · intro hceq
      simp [compare_files, h1, h2, hlen, hceq, cmpLoop_self]
  · intro hlen hcne
    have h := cmpLoop_ne _ _ hlen hcne
    simpa [compare_files, h1, h2, hlen] using h

/-- Claim C3, witness: the three phases at concrete file pairs — size
mismatch with zero reads, equality, and content mismatch. -/
theorem C3_compare_files_witness :
    compare_files ⟨true, [1, 2]⟩ ⟨true, [1]⟩ = (.sizeMismatch, 0) ∧
    (compare_files ⟨true, [7]⟩ ⟨true, [7]⟩).1 = .equal ∧
    (compare_files ⟨true, [1, 2]⟩ ⟨true, [1, 3]⟩).1 = .contentMismatch := by
  refine ⟨?_, ?_, ?_⟩
  · exact (C3_compare_files ⟨true, [1, 2]⟩ ⟨true, [1]⟩ rfl rfl).1 (by decide)
  · exact ((C3_compare_files ⟨true, [7]⟩ ⟨true, [7]⟩ rfl rfl).2.1 rfl).mpr rfl
  · exact ((C3_compare_files ⟨true, [1, 2]⟩ ⟨true, [1, 3]⟩ rfl rfl).2.2 rfl
      (by decide)).1

/-! ## Embedding of FileInfos.get_directory_tree (src/core/file_info.py)

The filesystem under a root is an inductive node: a regular file with its
stat size, or a directory with its children and a flag telling whether
iterating it raises PermissionError.  The returned dictionaries become the
TreeOut inductive: the children key is present (some) exactly for
directories, and the permission_error key is modelled by a boolean that is
true exactly when the except branch ran. -/

/-- A filesystem node for the tree walk. -/
inductive FsNode where
  | file (name : String) (size : Nat)
  | dir (name : String) (denied : Bool) (children : List FsNode)

/-- A node dictionary produced by build_tree: name, type, size, the optional
children list, and the permission_error flag. -/
inductive TreeOut where
  | mk (name : String) (type : String) (size : Nat)
       (children : Option (List TreeOut)) (permError : Bool)

/-- The children entry of a node dictionary. -/
def TreeOut.children : TreeOut → Option (List TreeOut)
  | .mk _ _ _ c _ => c

/-- The permission_error flag of a node dictionary. -/
def TreeOut.permError : TreeOut → Bool
  | .mk _ _ _ _ p => p

/-- The name entry of a node dictionary. -/
def TreeOut.name : TreeOut → String
  | .mk n _ _ _ _ => n

/-- Embedding of the inner build_tree of get_directory_tree: a call at
depth beyond max_depth returns no node; a file node carries its size; a
directory node starts with empty children, then either iteration raises
(children stay empty, permission_error set) or each child's subtree is
appended when the recursive call returns a node. -/
def build_tree (maxDepth : Nat) (n : FsNode) (depth : Nat) : Option TreeOut :=
  if maxDepth < depth then none
  else
    match n with
    | .file nm sz => some (.mk nm "file" sz none false)
    | .dir nm denied cs =>
        if denied then some (.mk nm "directory" 0 (some []) true)
        else some (.mk nm "directory" 0
          (some (cs.attach.filterMap
            (fun c => build_tree maxDepth c.1 (depth + 1)))) false)
termination_by sizeOf n
decreasing_by
  have := List.sizeOf_lt_of_mem c.2
  simp
  omega

/-- Unfolding of build_tree on a file node. -/
theorem build_tree_file (maxDepth : Nat) (nm : String) (sz : Nat) (depth : Nat) :
    build_tree maxDepth (.file nm sz) depth =
      if maxDepth < depth then none else some (.mk nm "file" sz none false) := by
  rw [build_tree]

/-- Unfolding of build_tree on a directory node. -/
theorem build_tree_dir (maxDepth : Nat) (nm : String) (denied : Bool)
    (cs : List FsNode) (depth : Nat) :
    build_tree maxDepth (.dir nm denied cs) depth =
      if maxDepth < depth then none
      else if denied then some (.mk nm "directory" 0 (some []) true)
      else some (.mk nm "directory" 0
        (some (cs.filterMap (fun c => build_tree maxDepth c (depth + 1)))) false) := by
  rw [build_tree]
  simp

/-- Height of a returned node: zero for a node without children, one more
than the maximal child height otherwise; equivalently the depth of the
deepest node of the subtree relative to its root. -/
def heightT (t : TreeOut) : Nat :=
  match t with
  | .mk _ _ _ none _ => 0
  | .mk _ _ _ (some cs) _ =>
      cs.attach.foldr (fun c acc => max (heightT c.1 + 1) acc) 0
termination_by sizeOf t
decreasing_by
  have := List.sizeOf_lt_of_mem c.2
  simp
  omega

/-- Unfolding of heightT on a childless node. -/
theorem heightT_none (nm ty : String) (sz : Nat) (p : Bool) :
    heightT (.mk nm ty sz none p) = 0 := by
  rw [heightT]

/-- Unfolding of heightT on a node with a children list. -/
theorem heightT_some (nm ty : String) (sz : Nat) (p : Bool) (cs : List TreeOut) :
    heightT (.mk nm ty sz (some cs) p) =
      cs.foldr (fun c acc => max (heightT c + 1) acc) 0 := by
  rw [heightT]
  simp

/-- A bound on all children heights bounds the height fold. -/
theorem foldr_height_le (cs : List TreeOut) (b : Nat)
    (h : ∀ t ∈ cs, heightT t + 1 ≤ b) :
    cs.foldr (fun c acc => max (heightT c + 1) acc) 0 ≤ b := by
  induction cs with
  | nil => simp
  | cons hd tl ih =>
      simp only [List.foldr_cons]
      have h1 := h hd (by simp)
      have h2 := ih (fun t ht => h t (by simp [ht]))
      omega

/-- A node is only returned at depths within the bound. -/
theorem build_tree_some_le (maxD : Nat) (n : FsNode) (d : Nat) (t : TreeOut)
    (h : build_tree maxD n d = some t) : d ≤ maxD := by
  by_contra hlt
  rw [build_tree.eq_def] at h
  rw [if_pos (by omega)] at h
  exact Option.noConfusion h

/-- The subtree returned for a call at depth d reaches at most depth
maxD - d below its root. -/
theorem build_tree_height (maxD : Nat) (n : FsNode) (d : Nat) (t : TreeOut)
    (h : build_tree maxD n d = some t) : heightT t ≤ maxD - d := by
  generalize hs : sizeOf n = s
  induction s using Nat.strong_induction_on generalizing n d t with
  | _ s ih =>
    have hdle : d ≤ maxD := build_tree_some_le _ _ _ _ h
    match n, hs with
    | .file nm sz, hs =>
        rw [build_tree_file, if_neg (by omega)] at h
        cases h
        simp [heightT_none]
    | .dir nm denied cs, hs =>
        rw [build_tree_dir, if_neg (by omega)] at h
        by_cases hden : denied
        · rw [if_pos hden] at h
          cases h
          simp [heightT_some]
        · rw [if_neg hden] at h
          cases h
          rw [heightT_some]
          apply foldr_height_le
          intro t2 ht2
          obtain ⟨c, hcmem, hceq⟩ := List.mem_filterMap.mp ht2
          have hd1 : d + 1 ≤ maxD := build_tree_some_le _ _ _ _ hceq
          have hszc := List.sizeOf_lt_of_mem hcmem
          have hszn : sizeOf cs < sizeOf (FsNode.dir nm denied cs) := by
            simp
          have := ih (sizeOf c) (by omega) c (d + 1) t2 hceq rfl
          omega

/-- The is_dir test on a filesystem node. -/
def FsNode.isDir : FsNode → Bool
  | .file _ _ => false
  | .dir _ _ _ => true

/-- Embedding of FileInfos.get_directory_tree: none unless the argument is
a directory, then the inner recursion starting at depth 0. -/
def get_directory_tree (maxDepth : Nat) (directory : FsNode) : Option TreeOut :=
  if ¬ directory.isDir then none else build_tree maxDepth directory 0

/-- The children of a node, empty for a node without a children entry. -/
def TreeOut.childList (t : TreeOut) : List TreeOut := t.children.getD []

/-- Claim C4: no node of a returned tree lies deeper than max_depth below
the root (the tree's height is bounded by max_depth), and for max_depth 0
the returned root has no children even when the directory is non-empty. -/
theorem C4_depth_bound (maxD : Nat) (root : FsNode) (t : TreeOut)
    (h : get_directory_tree maxD root = some t) :
    heightT t ≤ maxD ∧ (maxD = 0 → t.childList = []) := by
  have hb : build_tree maxD root 0 = some t := by
    by_cases hd : root.isDir
    · simpa [get_directory_tree, hd] using h
    · simp [get_directory_tree, hd] at h
  have hh := build_tree_height maxD root 0 t hb
  simp only [Nat.sub_zero] at hh
  refine ⟨hh, ?_⟩
  intro h0
  subst h0
  rcases t with ⟨nm, ty, sz, c, p⟩
  cases c with
  | none => simp [TreeOut.childList, TreeOut.children]
  | some cs =>
      cases cs with
      | nil => simp [TreeOut.childList, TreeOut.children]
      | cons a rest =>
          exfalso
          rw [heightT_some] at hh
          simp only [List.foldr_cons] at hh
          omega

/-- Claim C4, witness: the walk of a non-empty directory with max_depth 0
returns a root with empty children and height 0. -/
theorem C4_depth_bound_witness :
    heightT (.mk "r" "directory" 0 (some []) false) ≤ 0 ∧
    TreeOut.childList (.mk "r" "directory" 0 (some []) false) = [] := by
  have h : get_directory_tree 0 (.dir "r" false [.file "a" 1, .dir "s" false []]) =
      some (.mk "r" "directory" 0 (some []) false) := by
    simp [get_directory_tree, FsNode.isDir, build_tree_dir, build_tree_file]
  have hc := C4_depth_bound 0 (.dir "r" false [.file "a" 1, .dir "s" false []]) _ h
  exact ⟨hc.1, hc.2 rfl⟩

/-- Claim C5: a directory whose listing raises PermissionError still yields
a node, with empty children and the permission_error flag set, caught at
that directory's level; and the children of any unrestricted directory are
exactly the trees built independently for each child, so every sibling
subtree is unaffected — in particular the flagged node of a denied child
appears among the children of its parent. -/
theorem C5_permission_isolation (maxD d : Nat) (nm : String) (cs : List FsNode)
    (hd : d ≤ maxD) :
    build_tree maxD (.dir nm true cs) d =
      some (.mk nm "directory" 0 (some []) true) ∧
    (∀ pn t, build_tree maxD (.dir pn false cs) d = some t →
      t.childList = cs.filterMap (fun c => build_tree maxD c (d + 1)) ∧
      t.permError = false) ∧
    (∀ pn t, build_tree maxD (.dir pn false cs) d = some t →
      ∀ nm2 cs2, FsNode.dir nm2 true cs2 ∈ cs → d + 1 ≤ maxD →
        TreeOut.mk nm2 "directory" 0 (some []) true ∈ t.childList) := by
  refine ⟨?_, ?_, ?_⟩
  · rw [build_tree_dir, if_neg (by omega)]
    simp
  · intro pn t ht
    rw [build_tree_dir, if_neg (by omega), if_neg (by simp)] at ht
    cases ht
    simp [TreeOut.childList, TreeOut.children, TreeOut.permError]
  · intro pn t ht nm2 cs2 hmem hd1
    rw [build_tree_dir, if_neg (by omega), if_neg (by simp)] at ht
    cases ht
    simp only [TreeOut.childList, TreeOut.children, Option.getD_some]
    apply List.mem_filterMap.mpr
    refine ⟨.dir nm2 true cs2, hmem, ?_⟩
    rw [build_tree_dir, if_neg (by omega)]
    simp

/-- Claim C5, witness: a denied directory at depth 1 yields the flagged
empty node; in a concrete walk with a denied child and a populated sibling,
the parent's children hold both the flagged node and the fully populated
sibling subtree. -/
theorem C5_permission_isolation_witness :
    build_tree 2 (.dir "locked" true [.file "x" 1]) 1 =
      some (.mk "locked" "directory" 0 (some []) true) ∧
    TreeOut.childList
        (.mk "root" "directory" 0
          (some [.mk "locked" "directory" 0 (some []) true,
                 .mk "open" "directory" 0 (some [.mk "a" "file" 5 none false]) false])
          false) =
      [.mk "locked" "directory" 0 (some []) true,
       .mk "open" "directory" 0 (some [.mk "a" "file" 5 none false]) false] ∧
    TreeOut.mk "locked" "directory" 0 (some []) true ∈
      TreeOut.childList
        (.mk "root" "directory" 0
          (some [.mk "locked" "directory" 0 (some []) true,
                 .mk "open" "directory" 0 (some [.mk "a" "file" 5 none false]) false])
          false) := by
  have hbuild : build_tree 2
      (.dir "root" false [.dir "locked" true [.file "x" 1],
        .dir "open" false [.file "a" 5]]) 0 =
      some (.mk "root" "directory" 0
        (some [.mk "locked" "directory" 0 (some []) true,
               .mk "open" "directory" 0 (some [.mk "a" "file" 5 none false]) false])
        false) := by
    simp [build_tree_dir, build_tree_file]
  have h := C5_permission_isolation 2 0 "locked"
    [FsNode.dir "locked" true [FsNode.file "x" 1], FsNode.dir "open" false [FsNode.file "a" 5]]
    (by omega)
  refine ⟨(C5_permission_isolation 2 1 "locked" [FsNode.file "x" 1] (by omega)).1, ?_, ?_⟩
  · have h2 := (h.2.1 "root" _ hbuild).1
    rw [h2]
    simp [List.filterMap_cons, build_tree_dir, build_tree_file]
  · exact h.2.2 "root" _ hbuild "locked" [FsNode.file "x" 1] (by simp) (by omega)

/-! ## Embedding of FileInfos.get_file_info (src/core/file_info.py)

The filesystem is an association of path strings to entries; os.stat and
Path.exists/is_file/is_dir follow symbolic links (with the kernel's loop
bound as fuel), Path.is_symlink looks at the entry itself.  Dictionary
fields no claim refers to (timestamps, owner, group, inode, device,
permissions, mime type, line count, hidden flag, parent, absolute path) are
omitted; optional fields model the keys added only for files, directories
or symlinks. -/

/-- An entry of the modelled filesystem: a regular file with its stat size,
a directory with its stat size and child names, or a symbolic link with its
target path. -/
inductive FsEntry where
  | file (size : Nat)
  | dir (size : Nat) (entries : List String)
  | symlink (target : String)
deriving DecidableEq, Repr

/-- The modelled filesystem. -/
structure Fs where
  entries : List (String × FsEntry)
deriving DecidableEq, Repr

/-- The entry stored at a path, links not followed (os.lstat). -/
def Fs.lookup (fs : Fs) (p : String) : Option FsEntry :=
  (fs.entries.find? (fun e => e.1 == p)).map Prod.snd

/-- Link-following stat: the entry a path finally refers to, none when the
path or a link target is missing or too many links chain (ELOOP). -/
def followStat (fs : Fs) : Nat → String → Option FsEntry
  | 0, _ => none
  | fuel + 1, p =>
      match fs.lookup p with
      | some (.symlink t) => followStat fs fuel t
      | e => e

/-- Embedding of Path.exists: stat succeeds, links followed. -/
def pathExists (fs : Fs) (p : String) : Bool :=
  (followStat fs 40 p).isSome

/-- Embedding of Path.is_file: a regular file after following links. -/
def isFileP (fs : Fs) (p : String) : Bool :=
  match followStat fs 40 p with
  | some (.file _) => true
  | _ => false

/-- Embedding of Path.is_dir: a directory after following links. -/
def isDirP (fs : Fs) (p : String) : Bool :=
  match followStat fs 40 p with
  | some (.dir _ _) => true
  | _ => false

/-- Embedding of Path.is_symlink: the entry itself is a link. -/
def isSymlinkP (fs : Fs) (p : String) : Bool :=
  match fs.lookup p with
  | some (.symlink _) => true
  | _ => false

/-- st_size of the stat result, links followed. -/
def statSize (fs : Fs) (p : String) : Nat :=
  match followStat fs 40 p with
  | some (.file sz) => sz
  | some (.dir sz _) => sz
  | _ => 0

/-- Number of entries Path.iterdir lists, links followed. -/
def dirCount (fs : Fs) (p : String) : Nat :=
  match followStat fs 40 p with
  | some (.dir _ es) => es.length
  | _ => 0

/-- Embedding of Path.resolve for the target field: follow the link chain
to its final path. -/
def resolveLink (fs : Fs) : Nat → String → String
  | 0, p => p
  | fuel + 1, p =>
      match fs.lookup p with
      | some (.symlink t) => resolveLink fs fuel t
      | _ => p

/-- Embedding of Path.name: the last slash-separated component. -/
def basename (p : String) : String :=
  String.mk ((splitOnChar '/' p.data).getLastD [])

/-- The dictionary get_file_info returns (claim-relevant fields). -/
structure FileInfoDict where
  name : String
  type : String
  size_bytes : Nat
  extension : Option String
  item_count : Option Nat
  is_empty : Option Bool
  target : Option String
  is_broken : Option Bool
deriving DecidableEq, Repr

/-- The outcome of a Python call: a returned value, or a raised exception
named by its class.  The embedded get_file_info catches OSError and returns
None on the missing-path check, so no execution path produces a raised
outcome — which is what claim C2 is about. -/
inductive PyOutcome (α : Type) where
  | ret (v : α)
  | raised (e : String)
deriving DecidableEq, Repr

/-- Embedding of FileInfos.get_file_info: None when the path does not
exist; otherwise the base dictionary, extended for files (extension) or
directories (item_count, is_empty), with the symlink fields overriding the
type and adding target plus the is_broken flag computed as
"not path.exists()". -/
def get_file_info (fs : Fs) (p : String) : PyOutcome (Option FileInfoDict) :=
  if ¬ pathExists fs p then .ret none
  else
    let base : FileInfoDict :=
      ⟨basename p, if isDirP fs p then "Directory" else "File",
       statSize fs p, none, none, none, none, none⟩
    let info1 :=
      if isFileP fs p then
        { base with extension := some (pySuffix (basename p)) }
      else if isDirP fs p then
        { base with item_count := some (dirCount fs p),
                    is_empty := some (dirCount fs p == 0) }
      else base
    let info2 :=
      if isSymlinkP fs p then
        { info1 with type := "Symbolic Link",
                     target := some (resolveLink fs 40 p),
                     is_broken := some (! pathExists fs p) }
      else info1
    .ret (some info2)

/-- Claim C2, counterexample: at a missing path get_file_info returns None
(a non-exception return value); it does not raise NotFoundError. -/
theorem C2_counterexample :
    get_file_info ⟨[]⟩ "missing" = .ret none ∧
    get_file_info ⟨[]⟩ "missing" ≠ .raised "NotFoundError" := by
  refine ⟨by decide, by decide⟩

/-- Claim C2, amended: for every path that does not exist, get_file_info
logs and returns None — failure is surfaced to the immediate caller through
the Optional return value, and no exception (in particular no
NotFoundError) is raised. -/
theorem C2_get_file_info_missing (fs : Fs) (p : String)
    (h : pathExists fs p = false) :
    get_file_info fs p = .ret none ∧
    ∀ e, get_file_info fs p ≠ .raised e := by
  refine ⟨by simp [get_file_info, h], ?_⟩
  intro e
  simp [get_file_info, h]

/-- Claim C2, witness at a concrete missing path in the empty
filesystem. -/
theorem C2_get_file_info_missing_witness :
    get_file_info ⟨[]⟩ "nothing/here" = .ret none :=
  (C2_get_file_info_missing ⟨[]⟩ "nothing/here" rfl).1

/-- Claim C10: a broken symbolic link (its target missing, so the
link-following existence check fails) makes get_file_info return None
rather than a descriptor; consequently every returned descriptor that
carries the is_broken flag carries it as false — a true flag is
unreachable. -/
theorem C10_broken_symlink (fs : Fs) (p : String) :
    (pathExists fs p = false → get_file_info fs p = .ret none) ∧
    (∀ info, get_file_info fs p = .ret (some info) →
      ∀ b, info.is_broken = some b → b = false) := by
  constructor
  · intro hne
    simp [get_file_info, hne]
  · intro info hret b hb
    by_cases he : pathExists fs p = true
    · simp only [get_file_info, he, not_true, if_neg, ite_false] at hret
      by_cases hsym : isSymlinkP fs p = true
      · simp only [hsym, if_true, if_pos] at hret
        have hinfo := (PyOutcome.ret.injEq _ _).mp hret
        have hinfo2 := (Option.some.injEq _ _).mp hinfo
        rw [← hinfo2] at hb
        simp [he] at hb
        simp [hb]
      · simp only [hsym] at hret
        have hinfo := (PyOutcome.ret.injEq _ _).mp hret
        have hinfo2 := (Option.some.injEq _ _).mp hinfo
        rw [← hinfo2] at hb
        by_cases hf : isFileP fs p = true
        · simp [hf] at hb
        · by_cases hd : isDirP fs p = true
          · simp [hf, hd] at hb
          · simp [hf, hd] at hb
    · simp only [Bool.not_eq_true] at he
      rw [(C2_get_file_info_missing fs p he).1] at hret
      exact Option.noConfusion ((PyOutcome.ret.injEq _ _).mp hret)

/-- Claim C10, witness: a dangling link "a" → "nope" is a symlink, fails
the existence check, and gets None; the descriptor of a healthy link
"s" → "f" carries is_broken = some false, and the theorem instantiated
there confirms the flag must be false. -/
theorem C10_broken_symlink_witness :
    isSymlinkP ⟨[("a", FsEntry.symlink "nope")]⟩ "a" = true ∧
    pathExists ⟨[("a", FsEntry.symlink "nope")]⟩ "a" = false ∧
    get_file_info ⟨[("a", FsEntry.symlink "nope")]⟩ "a" = .ret none ∧
    (⟨"s", "Symbolic Link", 3, some "", none, none, some "f",
        some false⟩ : FileInfoDict).is_broken = some false ∧
    (false : Bool) = false := by
  refine ⟨by decide, by decide, ?_, by decide, ?_⟩
  · exact (C10_broken_symlink ⟨[("a", FsEntry.symlink "nope")]⟩ "a").1 (by decide)
  · exact (C10_broken_symlink ⟨[("s", FsEntry.symlink "f"), ("f", FsEntry.file 3)]⟩ "s").2
      ⟨"s", "Symbolic Link", 3, some "", none, none, some "f", some false⟩
      (by decide) false (by decide)
